import Mathlib

/-
Verification of the mixed Neumann-Dirichlet boundary element tutorial:
a shallow embedding of the notebook pipeline (segment-restricted function
spaces, the blocked boundary operator system, the right-hand side, the
Krylov solve and the recombination of the solution), together with models
of the external library capabilities the notebook relies on (the Space
Builder dof-inclusion rule, the Operator Assembler and the Krylov loop),
each modelled from the specification where the library code is not part
of the repository.
-/

set_option maxHeartbeats 1000000

namespace MixedBEM

/-- Location of a candidate dof reference point relative to a segment domain:
strictly inside the domain, on the boundary edges shared with the complementary
segment set, or outside the domain. -/
inductive RefLoc
  | interior
  | boundary
  | exterior
  deriving DecidableEq

/-- View of one candidate degree of freedom relative to a fixed segment domain:
where its reference point lies, and whether its basis-function support lies
inside the domain elements. -/
structure SegDof where
  refLoc : RefLoc
  supportInside : Bool
  deriving DecidableEq

/-- Modelled from the spec: the Space Builder dof inclusion rule (spec section
4.2 step 3), with the polarity of the reference_point_on_segment flag as
documented in the notebook markdown of the source: with closed = true every
boundary-located dof is included; with closed = false a dof whose reference
point lies on the excluded boundary is included exactly when
reference_point_on_segment = false and its basis support lies inside the
domain; interior reference points are always included and exterior ones
never. -/
def dofIncluded (closed referencePointOnSegment : Bool) (d : SegDof) : Bool :=
  match d.refLoc with
  | RefLoc.interior => true
  | RefLoc.boundary => closed || (!referencePointOnSegment && d.supportInside)
  | RefLoc.exterior => false

/-- Number of dofs a space keeps from a list of candidate dofs, under the
closed and reference_point_on_segment flags. -/
def spaceCount (closed rps : Bool) (dofs : List SegDof) : Nat :=
  (dofs.filter (fun d => dofIncluded closed rps d)).length

/-- Position of a mesh-level dof relative to the Dirichlet/Neumann partition of
the closed surface: in the interior of the Dirichlet segment set, on the
interface edges between the two segment sets, or in the interior of the
Neumann segment set. -/
inductive MeshLoc
  | onDirichlet
  | onInterface
  | onNeumann
  deriving DecidableEq

/-- A continuous (P family) candidate dof on the surface mesh, classified
relative to the Dirichlet/Neumann partition. -/
structure PDof where
  loc : MeshLoc
  deriving DecidableEq

/-- A discontinuous (DP family) candidate dof: it belongs to a single element,
which lies on the Dirichlet side or on the Neumann side, and its reference
point may sit on the interface between the two segment sets. -/
structure NeuDof where
  onDirichletSide : Bool
  refOnInterface : Bool
  deriving DecidableEq

/-- The mesh data the spaces of the notebook are built from: the candidate
continuous dofs and the candidate discontinuous dofs with their classification
relative to the Dirichlet/Neumann partition. -/
structure MeshData where
  pDofs : List PDof
  nDofs : List NeuDof
  deriving DecidableEq

/-- View of a continuous dof relative to one side of the partition.  A dof on
the interface has its reference point on the boundary of either side, and its
basis support extends into elements on both sides, so the support is not
contained in either side alone (strictly_on_segment = false, the default used
for the segment spaces of the notebook); a dof strictly inside one side has
all incident elements on that side. -/
def pView (domainIsDirichlet : Bool) (d : PDof) : SegDof :=
  match d.loc with
  | MeshLoc.onInterface => { refLoc := RefLoc.boundary, supportInside := false }
  | MeshLoc.onDirichlet =>
      if domainIsDirichlet then { refLoc := RefLoc.interior, supportInside := true }
      else { refLoc := RefLoc.exterior, supportInside := false }
  | MeshLoc.onNeumann =>
      if domainIsDirichlet then { refLoc := RefLoc.exterior, supportInside := false }
      else { refLoc := RefLoc.interior, supportInside := true }

/-- Inclusion test for a continuous dof in a segment space on the given side. -/
def pIncluded (domainIsDirichlet closed rps : Bool) (d : PDof) : Bool :=
  dofIncluded closed rps (pView domainIsDirichlet d)

/-- Inclusion test for a discontinuous dof in a segment space on the given
side, with element_on_segment = true as used for both DP segment spaces of the
notebook: the candidate elements are exactly the elements of the side, so a
dof of an element on the other side is excluded outright, and a kept dof has
its support (its single element) inside the domain. -/
def nIncluded (domainIsDirichlet closed rps : Bool) (d : NeuDof) : Bool :=
  decide (d.onDirichletSide = domainIsDirichlet) &&
    dofIncluded closed rps
      { refLoc := if d.refOnInterface then RefLoc.boundary else RefLoc.interior,
        supportInside := true }

/-- Tags identifying the spaces the notebook constructs. -/
inductive SpaceTag
  | globalNeumann
  | globalDirichlet
  | neumannDirichletSeg
  | neumannNeumannSeg
  | dirichletDirichletSeg
  | dirichletNeumannSeg
  | dualDirichlet
  deriving DecidableEq

/-- A discrete function space: which notebook space it is, and its dof count
as computed by the Space Builder model. -/
structure Space where
  tag : SpaceTag
  dof_count : Nat
  deriving DecidableEq

/-- Builder for continuous (P family) spaces: either a global space over the
whole surface (dom = none), or a segment space over the Dirichlet side
(dom = some true) or the Neumann side (dom = some false), with the closed and
reference_point_on_segment flags. -/
def function_space_P (m : MeshData) (tag : SpaceTag) (dom : Option Bool)
    (closed rps : Bool) : Space :=
  match dom with
  | none => { tag := tag, dof_count := m.pDofs.length }
  | some dIsD =>
      { tag := tag, dof_count := (m.pDofs.filter (pIncluded dIsD closed rps)).length }

/-- Builder for discontinuous (DP family) spaces, with element_on_segment =
true for the segment spaces as in the notebook. -/
def function_space_DP (m : MeshData) (tag : SpaceTag) (dom : Option Bool)
    (closed rps : Bool) : Space :=
  match dom with
  | none => { tag := tag, dof_count := m.nDofs.length }
  | some dIsD =>
      { tag := tag, dof_count := (m.nDofs.filter (nIncluded dIsD closed rps)).length }

/-- Global DP space of the Neumann data, as in the source. -/
def global_neumann_space (m : MeshData) : Space :=
  function_space_DP m SpaceTag.globalNeumann none true true

/-- Global P space of the Dirichlet data, as in the source. -/
def global_dirichlet_space (m : MeshData) : Space :=
  function_space_P m SpaceTag.globalDirichlet none true true

/-- DP space on the Dirichlet segment: closed = true, element_on_segment =
true, reference_point_on_segment at its default true, as in the source. -/
def neumann_space_dirichlet_segment (m : MeshData) : Space :=
  function_space_DP m SpaceTag.neumannDirichletSeg (some true) true true

/-- DP space on the Neumann segment: closed = false, element_on_segment =
true, reference_point_on_segment = false, as in the source. -/
def neumann_space_neumann_segment (m : MeshData) : Space :=
  function_space_DP m SpaceTag.neumannNeumannSeg (some false) false false

/-- P space on the Dirichlet segment: closed = true, as in the source. -/
def dirichlet_space_dirichlet_segment (m : MeshData) : Space :=
  function_space_P m SpaceTag.dirichletDirichletSeg (some true) true true

/-- P space on the Neumann segment: closed = false, reference_point_on_segment
at its default true, as in the source. -/
def dirichlet_space_neumann_segment (m : MeshData) : Space :=
  function_space_P m SpaceTag.dirichletNeumannSeg (some false) false true

/-- Dual space used for projecting the Dirichlet data, closed = true with
strictly_on_segment = true; the truncation of the basis support does not
change the dof set, so the dof count agrees with the Dirichlet-segment
space. -/
def dual_dirichlet_space (m : MeshData) : Space :=
  function_space_P m SpaceTag.dualDirichlet (some true) true true

/-- Pointwise monotonicity of the inclusion rule in the closed flag. -/
lemma dofIncluded_mono (rps : Bool) (d : SegDof) :
    dofIncluded false rps d = true → dofIncluded true rps d = true := by
  cases d with
  | mk l s => cases l <;> simp [dofIncluded]

/-- Filtering with a pointwise weaker predicate keeps at most as many
elements. -/
lemma filter_length_mono (p q : SegDof → Bool) (h : ∀ d, p d = true → q d = true)
    (l : List SegDof) : (l.filter p).length ≤ (l.filter q).length := by
  induction l with
  | nil => simp
  | cons a t ih =>
    cases hpa : p a with
    | false =>
      cases hqa : q a with
      | false => simpa [List.filter_cons, hpa, hqa] using ih
      | true =>
        simp only [List.filter_cons, hpa, hqa]
        simpa using Nat.le_succ_of_le ih
    | true =>
      have hqa : q a = true := h a hpa
      simp only [List.filter_cons, hpa, hqa]
      simpa using ih

/-- Filtering with a pointwise weaker predicate keeps strictly fewer elements
when some list element satisfies the stronger predicate but not the weaker
one. -/
lemma filter_length_strict (p q : SegDof → Bool) (h : ∀ d, p d = true → q d = true)
    (l : List SegDof) (d : SegDof) (hd : d ∈ l) (hq : q d = true) (hp : p d = false) :
    (l.filter p).length < (l.filter q).length := by
  induction l with
  | nil => cases hd
  | cons a t ih =>
    rcases List.mem_cons.mp hd with h1 | h1
    · subst h1
      simp only [List.filter_cons, hp, hq]
      simpa using Nat.lt_succ_of_le (filter_length_mono p q h t)
    · cases hpa : p a with
      | true =>
        have hqa := h a hpa
        simp only [List.filter_cons, hpa, hqa]
        simpa using Nat.succ_lt_succ (ih h1)
      | false =>
        cases hqa : q a with
        | true =>
          simp only [List.filter_cons, hpa, hqa]
          simpa using Nat.lt_succ_of_lt (ih h1)
        | false =>
          simpa [List.filter_cons, hpa, hqa] using ih h1

/-- The two complementary segment spaces of the continuous family split the
global candidate dofs exactly, whichever side is the closed one. -/
lemma pPartition (l : List PDof) (cD rD rN : Bool) :
    (l.filter (pIncluded true cD rD)).length
      + (l.filter (pIncluded false (!cD) rN)).length = l.length := by
  cases cD with
  | false =>
    induction l with
    | nil => simp
    | cons a t ih =>
      cases ha : a.loc <;>
        simp [List.filter_cons, pIncluded, pView, dofIncluded, ha] at ih ⊢ <;> omega
  | true =>
    induction l with
    | nil => simp
    | cons a t ih =>
      cases ha : a.loc <;>
        simp [List.filter_cons, pIncluded, pView, dofIncluded, ha] at ih ⊢ <;> omega

/-- No continuous dof is kept by both complementary segment spaces. -/
lemma pDisjoint (cD rD rN : Bool) (d : PDof) :
    (pIncluded true cD rD d && pIncluded false (!cD) rN d) = false := by
  cases hd : d.loc <;> cases cD <;> simp [pIncluded, pView, dofIncluded, hd]

/-- Claim C3: for every mesh partitioned into complementary Dirichlet and
Neumann segment sets and every consistent flag combination (one side closed,
the other open, with any reference_point_on_segment flags), the dof count of
the Dirichlet space restricted to the Dirichlet segment plus the dof count of
the Dirichlet space restricted to the Neumann segment equals the dof count of
the global Dirichlet space, the deduplication at the interface being trivial
because no dof is kept by both sides: no interface dof is counted twice and
none is omitted. -/
theorem C3_dof_partition (m : MeshData) (cD rD rN : Bool) :
    (function_space_P m SpaceTag.dirichletDirichletSeg (some true) cD rD).dof_count
        + (function_space_P m SpaceTag.dirichletNeumannSeg (some false) (!cD) rN).dof_count
      = (global_dirichlet_space m).dof_count
    ∧ (dirichlet_space_dirichlet_segment m).dof_count
        + (dirichlet_space_neumann_segment m).dof_count
      = (global_dirichlet_space m).dof_count
    ∧ ∀ d : PDof, (pIncluded true cD rD d && pIncluded false (!cD) rN d) = false := by
  refine ⟨?_, ?_, fun d => pDisjoint cD rD rN d⟩
  · simpa [function_space_P, global_dirichlet_space] using pPartition m.pDofs cD rD rN
  · have h := pPartition m.pDofs true true true
    simpa [dirichlet_space_dirichlet_segment, dirichlet_space_neumann_segment,
      global_dirichlet_space, function_space_P] using h

/-- Claim C4, counterexample: the claim that with closed = false a
boundary-located dof is included exactly when reference_point_on_segment is
true and its support lies inside the domain is false: at
reference_point_on_segment = true a boundary-located dof with support inside
the domain is excluded by the code, whose notebook markdown documents that it
is the value false of the flag that includes such dofs. -/
theorem C4_counterexample :
    ¬ ((∀ (rps : Bool) (d : SegDof), d.refLoc = RefLoc.boundary →
          dofIncluded false rps d = (rps && d.supportInside))
        ∧ (∀ d : SegDof, dofIncluded false false d = decide (d.refLoc = RefLoc.interior))) := by
  intro h
  have h1 := h.1 true { refLoc := RefLoc.boundary, supportInside := true } rfl
  simp [dofIncluded] at h1

/-- Claim C4 as amended: with closed = false, a candidate dof whose reference
point lies on the excluded boundary is included exactly when
reference_point_on_segment is false and its basis support lies inside the
domain; with reference_point_on_segment true only dofs with reference point
strictly inside the domain are kept. -/
theorem C4_amended (rps sup : Bool) (d : SegDof) :
    dofIncluded false rps { refLoc := RefLoc.boundary, supportInside := sup }
        = (!rps && sup)
    ∧ dofIncluded false true d = decide (d.refLoc = RefLoc.interior) := by
  constructor
  · simp [dofIncluded]
  · cases d with
    | mk l s => cases l <;> simp [dofIncluded]

/-- Claim C7, counterexample: it is not true that for every space on a domain
with boundary dofs changing closed from true to false strictly decreases the
dof count: with reference_point_on_segment = false (as used for the DP space
on the Neumann segment in the source) a boundary-located dof whose support
lies inside the domain is kept either way, so the counts coincide. -/
theorem C7_counterexample :
    ¬ (∀ (dofs : List SegDof) (rps : Bool),
        (∃ d, d ∈ dofs ∧ d.refLoc = RefLoc.boundary) →
          spaceCount false rps dofs < spaceCount true rps dofs) := by
  intro h
  have h1 := h [{ refLoc := RefLoc.boundary, supportInside := true }] false
    ⟨{ refLoc := RefLoc.boundary, supportInside := true }, List.mem_singleton.mpr rfl, rfl⟩
  exact absurd h1 (by decide)

/-- Claim C7 as amended: changing closed from true to false never increases
the dof count of a space, and it strictly decreases the count when
reference_point_on_segment is true and the domain carries at least one
boundary-located candidate dof. -/
theorem C7_amended (dofs : List SegDof) (rps : Bool) :
    spaceCount false rps dofs ≤ spaceCount true rps dofs
    ∧ (rps = true → (∃ d, d ∈ dofs ∧ d.refLoc = RefLoc.boundary) →
        spaceCount false rps dofs < spaceCount true rps dofs) := by
  constructor
  · exact filter_length_mono _ _ (fun d => dofIncluded_mono rps d) dofs
  · intro hr hex
    subst hr
    obtain ⟨d, hmem, hb⟩ := hex
    refine filter_length_strict _ _ (fun e => dofIncluded_mono true e) dofs d hmem ?_ ?_
    · cases d with
      | mk l s => cases l <;> simp_all [dofIncluded]
    · cases d with
      | mk l s => cases l <;> simp_all [dofIncluded]

/-- Witness for the amended claim C7 at a concrete one-dof space. -/
theorem C7_amended_witness :
    spaceCount false true [{ refLoc := RefLoc.boundary, supportInside := true }]
        ≤ spaceCount true true [{ refLoc := RefLoc.boundary, supportInside := true }]
    ∧ spaceCount false true [{ refLoc := RefLoc.boundary, supportInside := true }]
        < spaceCount true true [{ refLoc := RefLoc.boundary, supportInside := true }] :=
  ⟨(C7_amended [{ refLoc := RefLoc.boundary, supportInside := true }] true).1,
    (C7_amended [{ refLoc := RefLoc.boundary, supportInside := true }] true).2 rfl
      ⟨{ refLoc := RefLoc.boundary, supportInside := true }, List.mem_singleton.mpr rfl, rfl⟩⟩

/-- Kernels of the boundary operators used in the notebook. -/
inductive Kernel
  | single_layer
  | double_layer
  | adjoint_double_layer
  | hypersingular
  | identity
  deriving DecidableEq

/-- A boundary operator: a kernel together with the three spaces passed in the
argument order of the source, bempp style: the domain (trial space), the range
space, and the dual-to-range space against which the weak form is tested. -/
structure BoundaryOp where
  kernel : Kernel
  domain : Space
  rng : Space
  dual_to_range : Space
  deriving DecidableEq

/-- Modelled from the spec: the quadrature evaluation of one Galerkin entry is
a black box of the external Operator Assembler; an entry oracle gives the
value of entry (i, j) for a kernel, the trial space and the space whose basis
the entry is tested against.  The remaining space of an operator does not
enter the entries: they are double-surface integrals of the kernel against the
trial and test basis functions only. -/
abbrev EntryOracle : Type := Kernel → Space → Space → Nat → Nat → ℚ

/-- Matrices are lists of rows of rationals. -/
abbrev Mat : Type := List (List ℚ)

/-- Pointwise sum of two coefficient vectors. -/
def vecAdd (v w : List ℚ) : List ℚ := List.zipWith (fun a b => a + b) v w

/-- Pointwise difference of two coefficient vectors. -/
def vecSub (v w : List ℚ) : List ℚ := List.zipWith (fun a b => a - b) v w

/-- Pointwise negation of a coefficient vector. -/
def vecNeg (v : List ℚ) : List ℚ := v.map (fun a => -a)

/-- Scalar multiple of a coefficient vector. -/
def vecSmul (c : ℚ) (v : List ℚ) : List ℚ := v.map (fun a => c * a)

/-- Dot product of two coefficient vectors. -/
def dotQ (v w : List ℚ) : ℚ := (List.zipWith (fun a b => a * b) v w).sum

/-- Matrix-vector product, one dot product per row. -/
def matvec (M : Mat) (v : List ℚ) : List ℚ := M.map (fun row => dotQ row v)

/-- Entrywise sum of two matrices. -/
def matAdd (A B : Mat) : Mat := List.zipWith vecAdd A B

/-- Entrywise difference of two matrices. -/
def matSub (A B : Mat) : Mat := List.zipWith vecSub A B

/-- Entrywise negation of a matrix. -/
def matNeg (A : Mat) : Mat := A.map vecNeg

/-- Scalar multiple of a matrix. -/
def matSmul (c : ℚ) (A : Mat) : Mat := A.map (vecSmul c)

/-- Discretized weak form of a boundary operator: rows are indexed by the dofs
of the dual-to-range space, columns by the dofs of the domain (trial) space,
and the entries come from the quadrature oracle. -/
def weakFormMat (E : EntryOracle) (b : BoundaryOp) : Mat :=
  (List.range b.dual_to_range.dof_count).map (fun i =>
    (List.range b.domain.dof_count).map (fun j =>
      E b.kernel b.domain b.dual_to_range i j))

/-- Discretized strong action of a boundary operator on coefficient vectors:
rows are indexed by the dofs of the range space, columns by the dofs of the
domain space; the external library obtains it from the weak form through a
mass-matrix solve, here folded into the oracle. -/
def strongFormMat (E : EntryOracle) (b : BoundaryOp) : Mat :=
  (List.range b.rng.dof_count).map (fun i =>
    (List.range b.domain.dof_count).map (fun j =>
      E b.kernel b.domain b.rng i j))

/-- Modelled from the spec: the Operator Assembler operation of section 4.3,
taking a kernel, a trial space, a test space and a dual space; in the argument
order of the source these are the domain, the dual-to-range and the range
space respectively. -/
def assemble (E : EntryOracle) (k : Kernel)
    (trial_space test_space dual_space : Space) : Mat :=
  weakFormMat E
    { kernel := k, domain := trial_space, rng := dual_space, dual_to_range := test_space }

/-- Mapping a constant function over an index range yields a replicated
list. -/
lemma map_const_range (n c : Nat) :
    (List.range n).map (fun _ => c) = List.replicate n c := by
  induction n with
  | zero => simp
  | succ k ih =>
    rw [List.range_succ, List.map_append, ih]
    simp [List.replicate_succ']

@[simp] lemma weakFormMat_length (E : EntryOracle) (b : BoundaryOp) :
    (weakFormMat E b).length = b.dual_to_range.dof_count := by
  simp [weakFormMat]

@[simp] lemma strongFormMat_length (E : EntryOracle) (b : BoundaryOp) :
    (strongFormMat E b).length = b.rng.dof_count := by
  simp [strongFormMat]

@[simp] lemma matvec_length (M : Mat) (v : List ℚ) :
    (matvec M v).length = M.length := by
  simp [matvec]

@[simp] lemma vecAdd_length (v w : List ℚ) :
    (vecAdd v w).length = min v.length w.length := by
  simp [vecAdd]

@[simp] lemma vecSub_length (v w : List ℚ) :
    (vecSub v w).length = min v.length w.length := by
  simp [vecSub]

@[simp] lemma vecNeg_length (v : List ℚ) : (vecNeg v).length = v.length := by
  simp [vecNeg]

@[simp] lemma vecSmul_length (c : ℚ) (v : List ℚ) :
    (vecSmul c v).length = v.length := by
  simp [vecSmul]

@[simp] lemma matAdd_length (A B : Mat) :
    (matAdd A B).length = min A.length B.length := by
  simp [matAdd]

@[simp] lemma matSub_length (A B : Mat) :
    (matSub A B).length = min A.length B.length := by
  simp [matSub]

@[simp] lemma matNeg_length (A : Mat) : (matNeg A).length = A.length := by
  simp [matNeg]

@[simp] lemma matSmul_length (c : ℚ) (A : Mat) :
    (matSmul c A).length = A.length := by
  simp [matSmul]

/-- Row lengths survive scalar multiplication of a matrix. -/
lemma matSmul_map_length (c : ℚ) (A : Mat) :
    (matSmul c A).map List.length = A.map List.length := by
  simp [matSmul, List.map_map, Function.comp]

/-- Every row of a weak form has the trial space's dof count as its length. -/
lemma weakFormMat_map_length (E : EntryOracle) (b : BoundaryOp) :
    (weakFormMat E b).map List.length
      = List.replicate b.dual_to_range.dof_count b.domain.dof_count := by
  unfold weakFormMat
  rw [List.map_map]
  have hc : (List.length ∘ fun i =>
        (List.range b.domain.dof_count).map
          (fun j => E b.kernel b.domain b.dual_to_range i j))
      = fun _ => b.domain.dof_count := by
    funext i
    simp
  rw [hc]
  exact map_const_range b.dual_to_range.dof_count b.domain.dof_count

/-- Claim C5: for every kernel and every triple of trial, test and dual
spaces, the matrix returned by the Operator Assembler has exactly the test
space's dof count as row count and the trial space's dof count as the length
of every row, and changing only the dual space argument never changes the
assembled matrix, hence never its shape. -/
theorem C5_assemble_shape (E : EntryOracle) (k : Kernel)
    (trial_space test_space dual_space dual_space2 : Space) :
    (assemble E k trial_space test_space dual_space).length = test_space.dof_count
    ∧ (assemble E k trial_space test_space dual_space).map List.length
        = List.replicate test_space.dof_count trial_space.dof_count
    ∧ assemble E k trial_space test_space dual_space
        = assemble E k trial_space test_space dual_space2 := by
  refine ⟨?_, ?_, rfl⟩
  · simp [assemble]
  · simpa [assemble] using weakFormMat_map_length E
      { kernel := k, domain := trial_space, rng := dual_space, dual_to_range := test_space }

/-- Single layer operator V_DD, spaces as passed in the source. -/
def slp_DD (m : MeshData) : BoundaryOp :=
  { kernel := Kernel.single_layer,
    domain := neumann_space_dirichlet_segment m,
    rng := dirichlet_space_dirichlet_segment m,
    dual_to_range := neumann_space_dirichlet_segment m }

/-- Double layer operator K_DN, spaces as passed in the source. -/
def dlp_DN (m : MeshData) : BoundaryOp :=
  { kernel := Kernel.double_layer,
    domain := dirichlet_space_neumann_segment m,
    rng := dirichlet_space_dirichlet_segment m,
    dual_to_range := neumann_space_dirichlet_segment m }

/-- Adjoint double layer operator K'_ND, spaces as passed in the source. -/
def adlp_ND (m : MeshData) : BoundaryOp :=
  { kernel := Kernel.adjoint_double_layer,
    domain := neumann_space_dirichlet_segment m,
    rng := neumann_space_neumann_segment m,
    dual_to_range := dirichlet_space_neumann_segment m }

/-- Hypersingular operator W_NN, spaces as passed in the source. -/
def hyp_NN (m : MeshData) : BoundaryOp :=
  { kernel := Kernel.hypersingular,
    domain := dirichlet_space_neumann_segment m,
    rng := neumann_space_neumann_segment m,
    dual_to_range := dirichlet_space_neumann_segment m }

/-- Single layer operator V_DN of the right-hand side, spaces as in the
source. -/
def slp_DN (m : MeshData) : BoundaryOp :=
  { kernel := Kernel.single_layer,
    domain := neumann_space_neumann_segment m,
    rng := dirichlet_space_dirichlet_segment m,
    dual_to_range := neumann_space_dirichlet_segment m }

/-- Double layer operator K_DD of the right-hand side, spaces as in the
source. -/
def dlp_DD (m : MeshData) : BoundaryOp :=
  { kernel := Kernel.double_layer,
    domain := dirichlet_space_dirichlet_segment m,
    rng := dirichlet_space_dirichlet_segment m,
    dual_to_range := neumann_space_dirichlet_segment m }

/-- Identity operator I_DD of the right-hand side, spaces as in the source. -/
def id_DD (m : MeshData) : BoundaryOp :=
  { kernel := Kernel.identity,
    domain := dirichlet_space_dirichlet_segment m,
    rng := dirichlet_space_dirichlet_segment m,
    dual_to_range := neumann_space_dirichlet_segment m }

/-- Adjoint double layer operator K'_NN of the right-hand side, spaces as in
the source. -/
def adlp_NN (m : MeshData) : BoundaryOp :=
  { kernel := Kernel.adjoint_double_layer,
    domain := neumann_space_neumann_segment m,
    rng := neumann_space_neumann_segment m,
    dual_to_range := dirichlet_space_neumann_segment m }

/-- Identity operator I_NN of the right-hand side, spaces as in the source. -/
def id_NN (m : MeshData) : BoundaryOp :=
  { kernel := Kernel.identity,
    domain := neumann_space_neumann_segment m,
    rng := neumann_space_neumann_segment m,
    dual_to_range := dirichlet_space_neumann_segment m }

/-- Hypersingular operator W_ND of the right-hand side, spaces as in the
source. -/
def hyp_ND (m : MeshData) : BoundaryOp :=
  { kernel := Kernel.hypersingular,
    domain := dirichlet_space_dirichlet_segment m,
    rng := neumann_space_neumann_segment m,
    dual_to_range := dirichlet_space_neumann_segment m }

/-- A boundary operator block with a scalar coefficient, as stored in the
blocked operator; the source stores the negated double layer block as
-dlp_DN. -/
structure ScaledOp where
  coeff : ℚ
  op : BoundaryOp
  deriving DecidableEq

/-- A blocked operator is a grid of optional scaled operator blocks. -/
abbrev BlockGrid : Type := Nat → Nat → Option ScaledOp

/-- The empty blocked operator, before any block is assigned. -/
def BlockGrid.emptyGrid : BlockGrid := fun _ _ => none

/-- Assigning one block of a blocked operator, as the source's indexed
assignment does. -/
def BlockGrid.setBlock (g : BlockGrid) (i j : Nat) (v : ScaledOp) : BlockGrid :=
  fun a b => if a = i ∧ b = j then some v else g a b

/-- The blocked operator of the source, built by four block assignments. -/
def blocked (m : MeshData) : BlockGrid :=
  ((((BlockGrid.emptyGrid).setBlock 0 0 { coeff := 1, op := slp_DD m }).setBlock 0 1
      { coeff := -1, op := dlp_DN m }).setBlock 1 0
      { coeff := 1, op := adlp_ND m }).setBlock 1 1
      { coeff := 1, op := hyp_NN m }

/-- Claim C1: the assembled 2x2 block operator has exactly the structure
with the single layer operator on the Dirichlet-segment spaces in block
(0, 0), the negated double layer operator with trial space on the Neumann
segment in block (0, 1), the adjoint double layer operator in block (1, 0)
and the hypersingular operator on the Neumann-segment spaces in block (1, 1);
the trial space of block column 0 is the Neumann space on the Dirichlet
segment (unknown t) and that of block column 1 is the Dirichlet space on the
Neumann segment (unknown u). -/
theorem C1_block_structure (m : MeshData) :
    blocked m 0 0 = some { coeff := 1, op := slp_DD m }
    ∧ blocked m 0 1 = some { coeff := -1, op := dlp_DN m }
    ∧ blocked m 1 0 = some { coeff := 1, op := adlp_ND m }
    ∧ blocked m 1 1 = some { coeff := 1, op := hyp_NN m }
    ∧ (slp_DD m).kernel = Kernel.single_layer
    ∧ (slp_DD m).domain = neumann_space_dirichlet_segment m
    ∧ (slp_DD m).rng = dirichlet_space_dirichlet_segment m
    ∧ (slp_DD m).dual_to_range = neumann_space_dirichlet_segment m
    ∧ (dlp_DN m).kernel = Kernel.double_layer
    ∧ (dlp_DN m).domain = dirichlet_space_neumann_segment m
    ∧ (dlp_DN m).rng = dirichlet_space_dirichlet_segment m
    ∧ (dlp_DN m).dual_to_range = neumann_space_dirichlet_segment m
    ∧ (adlp_ND m).kernel = Kernel.adjoint_double_layer
    ∧ (adlp_ND m).domain = neumann_space_dirichlet_segment m
    ∧ (adlp_ND m).rng = neumann_space_neumann_segment m
    ∧ (adlp_ND m).dual_to_range = dirichlet_space_neumann_segment m
    ∧ (hyp_NN m).kernel = Kernel.hypersingular
    ∧ (hyp_NN m).domain = dirichlet_space_neumann_segment m
    ∧ (hyp_NN m).rng = neumann_space_neumann_segment m
    ∧ (hyp_NN m).dual_to_range = dirichlet_space_neumann_segment m :=
  ⟨rfl, rfl, rfl, rfl, rfl, rfl, rfl, rfl, rfl, rfl, rfl, rfl, rfl, rfl, rfl, rfl,
    rfl, rfl, rfl, rfl⟩

/-- A grid function: a coefficient vector attached to a function space. -/
structure GridFun where
  space : Space
  coefficients : List ℚ

/-- Operator expressions as the source forms them: a boundary operator, a
scalar multiple, a sum, a difference, or a negation. -/
inductive OpExpr
  | atom (b : BoundaryOp)
  | smul (c : ℚ) (e : OpExpr)
  | add (e f : OpExpr)
  | sub (e f : OpExpr)
  | neg (e : OpExpr)

/-- Weak-form matrix of an operator expression, combining the blocks'
discretized matrices with the scalar coefficients applied first. -/
def OpExpr.mat (E : EntryOracle) : OpExpr → Mat
  | OpExpr.atom b => weakFormMat E b
  | OpExpr.smul c e => matSmul c (OpExpr.mat E e)
  | OpExpr.add e f => matAdd (OpExpr.mat E e) (OpExpr.mat E f)
  | OpExpr.sub e f => matSub (OpExpr.mat E e) (OpExpr.mat E f)
  | OpExpr.neg e => matNeg (OpExpr.mat E e)

/-- Whether every boundary operator of an expression has the given space as
its dual-to-range space. -/
def OpExpr.dualOk (S : Space) : OpExpr → Bool
  | OpExpr.atom b => decide (b.dual_to_range = S)
  | OpExpr.smul _ e => OpExpr.dualOk S e
  | OpExpr.add e f => OpExpr.dualOk S e && OpExpr.dualOk S f
  | OpExpr.sub e f => OpExpr.dualOk S e && OpExpr.dualOk S f
  | OpExpr.neg e => OpExpr.dualOk S e

/-- A field formed by applying operator expressions to grid functions and
combining the results, as the source's right-hand side does. -/
inductive Field
  | app (e : OpExpr) (g : GridFun)
  | add (f g : Field)
  | sub (f g : Field)
  | neg (f : Field)

/-- The vector of dual pairings of a field against the dof basis of the
shared dual-to-range space of its operators: for an operator application this
is the weak form applied to the grid function's coefficients. -/
def Field.projVec (E : EntryOracle) : Field → List ℚ
  | Field.app e g => matvec (OpExpr.mat E e) g.coefficients
  | Field.add f g => vecAdd (Field.projVec E f) (Field.projVec E g)
  | Field.sub f g => vecSub (Field.projVec E f) (Field.projVec E g)
  | Field.neg f => vecNeg (Field.projVec E f)

/-- Whether every operator application inside a field is tested against the
given space. -/
def Field.dualOk (S : Space) : Field → Bool
  | Field.app e _ => OpExpr.dualOk S e
  | Field.add f g => Field.dualOk S f && Field.dualOk S g
  | Field.sub f g => Field.dualOk S f && Field.dualOk S g
  | Field.neg f => Field.dualOk S f

/-- Projections of a field onto a space: meaningful exactly when the space is
the dual-to-range space shared by all operators of the field, in which case
it is the weak-form pairing vector. -/
def Field.projections (E : EntryOracle) (S : Space) (f : Field) : List ℚ :=
  if Field.dualOk S f then Field.projVec E f else []

/-- The Dirichlet data grid function of the source, with the black-box
projection of the constant data function through the dual Dirichlet space
abstracted into the given coefficient vector. -/
def dirichlet_grid_fun (m : MeshData) (gD : List ℚ) : GridFun :=
  { space := dirichlet_space_dirichlet_segment m, coefficients := gD }

/-- The Neumann data grid function of the source, coefficients abstracted as
for the Dirichlet data. -/
def neumann_grid_fun (m : MeshData) (gN : List ℚ) : GridFun :=
  { space := neumann_space_neumann_segment m, coefficients := gN }

/-- First right-hand side field of the source:
(0.5 id_DD + dlp_DD) applied to the Dirichlet data minus slp_DN applied to
the Neumann data. -/
def rhs_fun1 (m : MeshData) (gD gN : List ℚ) : Field :=
  Field.sub
    (Field.app
      (OpExpr.add (OpExpr.smul (1 / 2) (OpExpr.atom (id_DD m))) (OpExpr.atom (dlp_DD m)))
      (dirichlet_grid_fun m gD))
    (Field.app (OpExpr.atom (slp_DN m)) (neumann_grid_fun m gN))

/-- Second right-hand side field of the source:
the negated hyp_ND applied to the Dirichlet data plus (0.5 id_NN - adlp_NN)
applied to the Neumann data. -/
def rhs_fun2 (m : MeshData) (gD gN : List ℚ) : Field :=
  Field.add
    (Field.app (OpExpr.neg (OpExpr.atom (hyp_ND m))) (dirichlet_grid_fun m gD))
    (Field.app
      (OpExpr.sub (OpExpr.smul (1 / 2) (OpExpr.atom (id_NN m))) (OpExpr.atom (adlp_NN m)))
      (neumann_grid_fun m gN))

/-- The concatenated right-hand side vector of the source: the projections of
the two right-hand side fields onto the two segment-restricted test spaces. -/
def rhs (E : EntryOracle) (m : MeshData) (gD gN : List ℚ) : List ℚ :=
  Field.projections E (neumann_space_dirichlet_segment m) (rhs_fun1 m gD gN)
    ++ Field.projections E (dirichlet_space_neumann_segment m) (rhs_fun2 m gD gN)

/-- All operators of the first right-hand side field are tested against the
Neumann space on the Dirichlet segment. -/
lemma rhs_fun1_dualOk (m : MeshData) (gD gN : List ℚ) :
    Field.dualOk (neumann_space_dirichlet_segment m) (rhs_fun1 m gD gN) = true := by
  simp [rhs_fun1, Field.dualOk, OpExpr.dualOk, id_DD, dlp_DD, slp_DN]

/-- All operators of the second right-hand side field are tested against the
Dirichlet space on the Neumann segment. -/
lemma rhs_fun2_dualOk (m : MeshData) (gD gN : List ℚ) :
    Field.dualOk (dirichlet_space_neumann_segment m) (rhs_fun2 m gD gN) = true := by
  simp [rhs_fun2, Field.dualOk, OpExpr.dualOk, hyp_ND, id_NN, adlp_NN]

/-- Dotting with a negated vector negates the dot product. -/
lemma dotQ_vecNeg (r c : List ℚ) : dotQ (vecNeg r) c = -(dotQ r c) := by
  induction r generalizing c with
  | nil => simp [dotQ, vecNeg]
  | cons a t ih =>
    cases c with
    | nil => simp [dotQ, vecNeg]
    | cons b s =>
      have h := ih s
      simp [dotQ, vecNeg] at h ⊢
      rw [h]
      ring

/-- Applying a negated matrix negates the matrix-vector product. -/
lemma matvec_matNeg (M : Mat) (c : List ℚ) :
    matvec (matNeg M) c = vecNeg (matvec M c) := by
  simp [matvec, matNeg, vecNeg, List.map_map, Function.comp, dotQ_vecNeg]
  intro a _
  exact dotQ_vecNeg a c

/-- Adding a negated vector is subtraction with the arguments swapped. -/
lemma vecAdd_vecNeg_eq_sub (a b : List ℚ) : vecAdd (vecNeg a) b = vecSub b a := by
  induction a generalizing b with
  | nil => cases b <;> simp [vecAdd, vecNeg, vecSub]
  | cons x t ih =>
    cases b with
    | nil => simp [vecAdd, vecNeg, vecSub]
    | cons y s =>
      simp [vecAdd, vecNeg, vecSub] at ih ⊢
      constructor
      · ring
      · exact ih s

/-- Claim C2: the right-hand side is built by applying the known-data
operator blocks to the two projected data grid functions, with first
component (0.5 id_DD + dlp_DD) applied to g_D minus slp_DN applied to g_N
and second component (0.5 id_NN - adlp_NN) applied to g_N minus hyp_ND
applied to g_D, and concatenating the projections of these two combined
fields onto the Neumann space on the Dirichlet segment and the Dirichlet
space on the Neumann segment; moreover those two spaces are indeed the
shared dual spaces of the fields' operators. -/
theorem C2_rhs_structure (E : EntryOracle) (m : MeshData) (gD gN : List ℚ) :
    rhs E m gD gN
      = Field.projections E (neumann_space_dirichlet_segment m)
          (Field.sub
            (Field.app
              (OpExpr.add (OpExpr.smul (1 / 2) (OpExpr.atom (id_DD m)))
                (OpExpr.atom (dlp_DD m)))
              (dirichlet_grid_fun m gD))
            (Field.app (OpExpr.atom (slp_DN m)) (neumann_grid_fun m gN)))
        ++ Field.projections E (dirichlet_space_neumann_segment m)
          (Field.sub
            (Field.app
              (OpExpr.sub (OpExpr.smul (1 / 2) (OpExpr.atom (id_NN m)))
                (OpExpr.atom (adlp_NN m)))
              (neumann_grid_fun m gN))
            (Field.app (OpExpr.atom (hyp_ND m)) (dirichlet_grid_fun m gD)))
    ∧ Field.dualOk (neumann_space_dirichlet_segment m) (rhs_fun1 m gD gN) = true
    ∧ Field.dualOk (dirichlet_space_neumann_segment m) (rhs_fun2 m gD gN) = true := by
  refine ⟨?_, rhs_fun1_dualOk m gD gN, rhs_fun2_dualOk m gD gN⟩
  unfold rhs
  congr 1
  have h2 := rhs_fun2_dualOk m gD gN
  have h3 : Field.dualOk (dirichlet_space_neumann_segment m)
      (Field.sub
        (Field.app
          (OpExpr.sub (OpExpr.smul (1 / 2) (OpExpr.atom (id_NN m)))
            (OpExpr.atom (adlp_NN m)))
          (neumann_grid_fun m gN))
        (Field.app (OpExpr.atom (hyp_ND m)) (dirichlet_grid_fun m gD))) = true := by
    simp [Field.dualOk, OpExpr.dualOk, hyp_ND, id_NN, adlp_NN]
  rw [Field.projections, Field.projections, if_pos h2, if_pos h3]
  simp only [rhs_fun2, Field.projVec, OpExpr.mat]
  rw [matvec_matNeg, vecAdd_vecNeg_eq_sub]

/-- Discretized matrix of one optional block, scalar coefficient applied
first; an unassigned block contributes no rows. -/
def scaledMat (E : EntryOracle) (o : Option ScaledOp) : Mat :=
  match o with
  | some s => matSmul s.coeff (weakFormMat E s.op)
  | none => []

/-- Discretized weak form of the blocked operator of the source: rows of the
two block rows concatenated horizontally, the two block rows stacked
vertically. -/
def lhs (E : EntryOracle) (m : MeshData) : Mat :=
  List.zipWith (fun r1 r2 => r1 ++ r2)
      (scaledMat E (blocked m 0 0)) (scaledMat E (blocked m 0 1))
    ++ List.zipWith (fun r1 r2 => r1 ++ r2)
      (scaledMat E (blocked m 1 0)) (scaledMat E (blocked m 1 1))

/-- Split index of the source: the dof count of the Neumann space on the
Dirichlet segment, the first unknown space. -/
def nx0 (m : MeshData) : Nat := (neumann_space_dirichlet_segment m).dof_count

/-- Length of the concatenated right-hand side vector. -/
lemma rhs_length (E : EntryOracle) (m : MeshData) (gD gN : List ℚ) :
    (rhs E m gD gN).length
      = (neumann_space_dirichlet_segment m).dof_count
        + (dirichlet_space_neumann_segment m).dof_count := by
  rw [rhs, List.length_append, Field.projections, Field.projections,
    if_pos (rhs_fun1_dualOk m gD gN), if_pos (rhs_fun2_dualOk m gD gN)]
  simp [rhs_fun1, rhs_fun2, Field.projVec, OpExpr.mat, id_DD, dlp_DD, slp_DN,
    hyp_ND, id_NN, adlp_NN]

/-- Row count of the discretized blocked operator. -/
lemma lhs_length (E : EntryOracle) (m : MeshData) :
    (lhs E m).length
      = (neumann_space_dirichlet_segment m).dof_count
        + (dirichlet_space_neumann_segment m).dof_count := by
  have e00 : blocked m 0 0 = some { coeff := 1, op := slp_DD m } := rfl
  have e01 : blocked m 0 1 = some { coeff := -1, op := dlp_DN m } := rfl
  have e10 : blocked m 1 0 = some { coeff := 1, op := adlp_ND m } := rfl
  have e11 : blocked m 1 1 = some { coeff := 1, op := hyp_NN m } := rfl
  rw [lhs, e00, e01, e10, e11]
  simp [scaledMat, slp_DD, dlp_DN, adlp_ND, hyp_NN]

/-- Claim C10: the space onto which each right-hand side field is projected
is the dual-to-range space shared by both operators of the corresponding
block row (the Neumann space on the Dirichlet segment for row 0, the
Dirichlet space on the Neumann segment for row 1), hence the concatenated
right-hand side vector's length equals the row count of the discretized block
operator, and the split index nx0 equals the length of every row of block
column 0. -/
theorem C10_row_consistency (E : EntryOracle) (m : MeshData) (gD gN : List ℚ) :
    Option.map (fun s => s.op.dual_to_range) (blocked m 0 0)
        = some (neumann_space_dirichlet_segment m)
    ∧ Option.map (fun s => s.op.dual_to_range) (blocked m 0 1)
        = some (neumann_space_dirichlet_segment m)
    ∧ Option.map (fun s => s.op.dual_to_range) (blocked m 1 0)
        = some (dirichlet_space_neumann_segment m)
    ∧ Option.map (fun s => s.op.dual_to_range) (blocked m 1 1)
        = some (dirichlet_space_neumann_segment m)
    ∧ Field.dualOk (neumann_space_dirichlet_segment m) (rhs_fun1 m gD gN) = true
    ∧ Field.dualOk (dirichlet_space_neumann_segment m) (rhs_fun2 m gD gN) = true
    ∧ (rhs E m gD gN).length
        = (neumann_space_dirichlet_segment m).dof_count
          + (dirichlet_space_neumann_segment m).dof_count
    ∧ (rhs E m gD gN).length = (lhs E m).length
    ∧ (scaledMat E (blocked m 0 0)).map List.length
        = List.replicate (neumann_space_dirichlet_segment m).dof_count (nx0 m)
    ∧ (scaledMat E (blocked m 1 0)).map List.length
        = List.replicate (dirichlet_space_neumann_segment m).dof_count (nx0 m) := by
  refine ⟨rfl, rfl, rfl, rfl, rhs_fun1_dualOk m gD gN, rhs_fun2_dualOk m gD gN,
    rhs_length E m gD gN, ?_, ?_, ?_⟩
  · rw [rhs_length E m gD gN, lhs_length E m]
  · have e00 : blocked m 0 0 = some { coeff := 1, op := slp_DD m } := rfl
    rw [e00]
    show (matSmul 1 (weakFormMat E (slp_DD m))).map List.length
      = List.replicate (neumann_space_dirichlet_segment m).dof_count (nx0 m)
    rw [matSmul_map_length, weakFormMat_map_length]
    rfl
  · have e10 : blocked m 1 0 = some { coeff := 1, op := adlp_ND m } := rfl
    rw [e10]
    show (matSmul 1 (weakFormMat E (adlp_ND m))).map List.length
      = List.replicate (dirichlet_space_neumann_segment m).dof_count (nx0 m)
    rw [matSmul_map_length, weakFormMat_map_length]
    rfl

/-- Grid function of the solved Neumann data on the Dirichlet segment: the
first nx0 entries of the solution vector, as in the source. -/
def neumann_solution (m : MeshData) (x : List ℚ) : GridFun :=
  { space := neumann_space_dirichlet_segment m, coefficients := x.take (nx0 m) }

/-- Grid function of the solved Dirichlet data on the Neumann segment: the
remaining entries of the solution vector, as in the source. -/
def dirichlet_solution (m : MeshData) (x : List ℚ) : GridFun :=
  { space := dirichlet_space_neumann_segment m, coefficients := x.drop (nx0 m) }

/-- Identity embedding of the Neumann space on the Dirichlet segment into the
global Neumann space, spaces as passed in the source. -/
def neumann_imbedding_dirichlet_segment (m : MeshData) : BoundaryOp :=
  { kernel := Kernel.identity,
    domain := neumann_space_dirichlet_segment m,
    rng := global_neumann_space m,
    dual_to_range := global_neumann_space m }

/-- Identity embedding of the Neumann space on the Neumann segment into the
global Neumann space, spaces as passed in the source. -/
def neumann_imbedding_neumann_segment (m : MeshData) : BoundaryOp :=
  { kernel := Kernel.identity,
    domain := neumann_space_neumann_segment m,
    rng := global_neumann_space m,
    dual_to_range := global_neumann_space m }

/-- Identity embedding of the Dirichlet space on the Dirichlet segment into
the global Dirichlet space, spaces as passed in the source. -/
def dirichlet_imbedding_dirichlet_segment (m : MeshData) : BoundaryOp :=
  { kernel := Kernel.identity,
    domain := dirichlet_space_dirichlet_segment m,
    rng := global_dirichlet_space m,
    dual_to_range := global_dirichlet_space m }

/-- Identity embedding of the Dirichlet space on the Neumann segment into the
global Dirichlet space, spaces as passed in the source. -/
def dirichlet_imbedding_neumann_segment (m : MeshData) : BoundaryOp :=
  { kernel := Kernel.identity,
    domain := dirichlet_space_neumann_segment m,
    rng := global_dirichlet_space m,
    dual_to_range := global_dirichlet_space m }

/-- Applying a boundary operator to a grid function yields a grid function on
the operator's range space, its coefficients given by the strong-form
matrix. -/
def opApplyG (E : EntryOracle) (b : BoundaryOp) (g : GridFun) : GridFun :=
  { space := b.rng, coefficients := matvec (strongFormMat E b) g.coefficients }

/-- Sum of two grid functions on the same space. -/
def gfAdd (g h : GridFun) : GridFun :=
  { space := g.space, coefficients := vecAdd g.coefficients h.coefficients }

/-- The recombined global Dirichlet field of the source: the embedded known
Dirichlet data on the Dirichlet segment plus the embedded solved Dirichlet
data on the Neumann segment. -/
def dirichletField (E : EntryOracle) (m : MeshData) (gD x : List ℚ) : GridFun :=
  gfAdd
    (opApplyG E (dirichlet_imbedding_dirichlet_segment m) (dirichlet_grid_fun m gD))
    (opApplyG E (dirichlet_imbedding_neumann_segment m) (dirichlet_solution m x))

/-- The recombined global Neumann field of the source: the embedded known
Neumann data on the Neumann segment plus the embedded solved Neumann data on
the Dirichlet segment. -/
def neumannField (E : EntryOracle) (m : MeshData) (gN x : List ℚ) : GridFun :=
  gfAdd
    (opApplyG E (neumann_imbedding_neumann_segment m) (neumann_grid_fun m gN))
    (opApplyG E (neumann_imbedding_dirichlet_segment m) (neumann_solution m x))

/-- Claim C6: the recombination splits the solved coefficient vector at the
dof count of the first unknown space, attaches the two halves to the two
segment spaces (so that the two halves concatenate back to the solution
vector), embeds via identity operators into the global spaces, forms the
global Dirichlet field as embedded known data plus embedded solved data and
likewise the global Neumann field, and the resulting global grid functions
live on the global spaces with dof counts equal to the global spaces' dof
counts. -/
theorem C6_recombination (E : EntryOracle) (m : MeshData) (gD gN x : List ℚ)
    (hx : x.length = nx0 m + (dirichlet_space_neumann_segment m).dof_count) :
    (neumann_solution m x).space = neumann_space_dirichlet_segment m
    ∧ (neumann_solution m x).coefficients = x.take (nx0 m)
    ∧ (dirichlet_solution m x).space = dirichlet_space_neumann_segment m
    ∧ (dirichlet_solution m x).coefficients = x.drop (nx0 m)
    ∧ (neumann_solution m x).coefficients ++ (dirichlet_solution m x).coefficients = x
    ∧ (neumann_solution m x).coefficients.length = nx0 m
    ∧ (dirichlet_solution m x).coefficients.length
        = (dirichlet_space_neumann_segment m).dof_count
    ∧ (dirichlet_imbedding_neumann_segment m).kernel = Kernel.identity
    ∧ (dirichlet_imbedding_neumann_segment m).rng = global_dirichlet_space m
    ∧ (dirichlet_imbedding_dirichlet_segment m).kernel = Kernel.identity
    ∧ (dirichlet_imbedding_dirichlet_segment m).rng = global_dirichlet_space m
    ∧ (neumann_imbedding_neumann_segment m).kernel = Kernel.identity
    ∧ (neumann_imbedding_neumann_segment m).rng = global_neumann_space m
    ∧ (neumann_imbedding_dirichlet_segment m).kernel = Kernel.identity
    ∧ (neumann_imbedding_dirichlet_segment m).rng = global_neumann_space m
    ∧ (dirichletField E m gD x).space = global_dirichlet_space m
    ∧ (dirichletField E m gD x).coefficients.length
        = (global_dirichlet_space m).dof_count
    ∧ (neumannField E m gN x).space = global_neumann_space m
    ∧ (neumannField E m gN x).coefficients.length
        = (global_neumann_space m).dof_count := by
  refine ⟨rfl, rfl, rfl, rfl, List.take_append_drop (nx0 m) x, ?_, ?_, rfl, rfl,
    rfl, rfl, rfl, rfl, rfl, rfl, rfl, ?_, rfl, ?_⟩
  · rw [neumann_solution]
    simp [hx]
  · rw [dirichlet_solution]
    simp [hx]
  · simp [dirichletField, gfAdd, opApplyG, dirichlet_imbedding_dirichlet_segment,
      dirichlet_imbedding_neumann_segment]
  · simp [neumannField, gfAdd, opApplyG, neumann_imbedding_dirichlet_segment,
      neumann_imbedding_neumann_segment]

/-- A concrete mesh instance with one continuous dof in each of the three
location classes and one discontinuous dof on each side of the partition. -/
def meshEx : MeshData :=
  { pDofs := [{ loc := MeshLoc.onDirichlet }, { loc := MeshLoc.onInterface },
      { loc := MeshLoc.onNeumann }],
    nDofs := [{ onDirichletSide := true, refOnInterface := false },
      { onDirichletSide := false, refOnInterface := true }] }

/-- A trivial quadrature oracle used to instantiate the recombination claim. -/
def oracle0 : EntryOracle := fun _ _ _ _ _ => 0

/-- Witness for claim C6 at the concrete mesh instance with solution vector
of length two split at index one. -/
theorem C6_recombination_witness :
    ([(3 : ℚ), 5]).length
        = nx0 meshEx + (dirichlet_space_neumann_segment meshEx).dof_count
    ∧ ((neumann_solution meshEx [(3 : ℚ), 5]).space
          = neumann_space_dirichlet_segment meshEx
      ∧ (neumann_solution meshEx [(3 : ℚ), 5]).coefficients
          = ([(3 : ℚ), 5]).take (nx0 meshEx)
      ∧ (dirichlet_solution meshEx [(3 : ℚ), 5]).space
          = dirichlet_space_neumann_segment meshEx
      ∧ (dirichlet_solution meshEx [(3 : ℚ), 5]).coefficients
          = ([(3 : ℚ), 5]).drop (nx0 meshEx)
      ∧ (neumann_solution meshEx [(3 : ℚ), 5]).coefficients
            ++ (dirichlet_solution meshEx [(3 : ℚ), 5]).coefficients = [(3 : ℚ), 5]
      ∧ (neumann_solution meshEx [(3 : ℚ), 5]).coefficients.length = nx0 meshEx
      ∧ (dirichlet_solution meshEx [(3 : ℚ), 5]).coefficients.length
          = (dirichlet_space_neumann_segment meshEx).dof_count
      ∧ (dirichlet_imbedding_neumann_segment meshEx).kernel = Kernel.identity
      ∧ (dirichlet_imbedding_neumann_segment meshEx).rng = global_dirichlet_space meshEx
      ∧ (dirichlet_imbedding_dirichlet_segment meshEx).kernel = Kernel.identity
      ∧ (dirichlet_imbedding_dirichlet_segment meshEx).rng = global_dirichlet_space meshEx
      ∧ (neumann_imbedding_neumann_segment meshEx).kernel = Kernel.identity
      ∧ (neumann_imbedding_neumann_segment meshEx).rng = global_neumann_space meshEx
      ∧ (neumann_imbedding_dirichlet_segment meshEx).kernel = Kernel.identity
      ∧ (neumann_imbedding_dirichlet_segment meshEx).rng = global_neumann_space meshEx
      ∧ (dirichletField oracle0 meshEx [(1 : ℚ), 1] [(3 : ℚ), 5]).space
          = global_dirichlet_space meshEx
      ∧ (dirichletField oracle0 meshEx [(1 : ℚ), 1] [(3 : ℚ), 5]).coefficients.length
          = (global_dirichlet_space meshEx).dof_count
      ∧ (neumannField oracle0 meshEx [(1 : ℚ)] [(3 : ℚ), 5]).space
          = global_neumann_space meshEx
      ∧ (neumannField oracle0 meshEx [(1 : ℚ)] [(3 : ℚ), 5]).coefficients.length
          = (global_neumann_space meshEx).dof_count) :=
  ⟨by decide,
    C6_recombination oracle0 meshEx [(1 : ℚ), 1] [(1 : ℚ)] [(3 : ℚ), 5] (by decide)⟩

/-- Squared distance of two quadrature points in space. -/
def sqdist (p q : ℚ × ℚ × ℚ) : ℚ :=
  (p.1 - q.1) ^ 2 + (p.2.1 - q.2.1) ^ 2 + (p.2.2 - q.2.2) ^ 2

/-- The squared distance is symmetric in its two points. -/
lemma sqdist_comm (p q : ℚ × ℚ × ℚ) : sqdist p q = sqdist q p := by
  unfold sqdist
  ring

/-- Modelled from the spec: a Galerkin entry of the hypersingular operator
assembled with one space reused as trial and test space (spec section 4.3):
a double quadrature sum of weights, a kernel value depending only on the
squared distance of the two quadrature points (the Laplace kernel is a
function of the distance), and the same transformed basis evaluated at the
row index on the outer point and the column index on the inner point. -/
def hypEntry (f : ℚ → ℚ) (pts : Nat → ℚ × ℚ × ℚ) (w : Nat → ℚ)
    (basis : Nat → Nat → ℚ) (npts : Nat) (i j : Nat) : ℚ :=
  ∑ x ∈ Finset.range npts, ∑ y ∈ Finset.range npts,
    w x * w y * f (sqdist (pts x) (pts y)) * basis i x * basis j y

/-- Claim C8: whenever the hypersingular operator is assembled with the same
space supplied as trial and test space, so that the same basis appears on
both sides of each Galerkin entry, the discretized matrix is symmetric:
entry (i, j) equals entry (j, i) for every pair of dof indices, for every
distance kernel, quadrature rule and basis. -/
theorem C8_hypersingular_symmetric (f : ℚ → ℚ) (pts : Nat → ℚ × ℚ × ℚ)
    (w : Nat → ℚ) (basis : Nat → Nat → ℚ) (npts : Nat) (i j : Nat) :
    hypEntry f pts w basis npts i j = hypEntry f pts w basis npts j i := by
  unfold hypEntry
  rw [Finset.sum_comm]
  refine Finset.sum_congr rfl (fun x _ => ?_)
  refine Finset.sum_congr rfl (fun y _ => ?_)
  rw [sqdist_comm (pts y) (pts x)]
  ring

/-- Iterating a Krylov update map a given number of times from a start
vector. -/
def iterateStep (step : List ℚ → List ℚ) : Nat → List ℚ → List ℚ
  | 0, x => x
  | Nat.succ n, x => iterateStep step n (step x)

/-- Modelled from the spec: the tolerance-controlled Krylov solve loop of
section 4.6, with the remaining iteration budget as fuel.  If the current
iterate meets the residual tolerance the loop returns it with status 0;
otherwise it applies one Krylov update; when the budget is exhausted it
returns the current best-available iterate together with the configured
maximum iteration count as a non-zero status flag, raising no error. -/
def gmresGo (step : List ℚ → List ℚ) (res : List ℚ → ℚ) (tol : ℚ)
    (maxiter : Nat) : Nat → List ℚ → List ℚ × Nat
  | 0, x => if res x ≤ tol then (x, 0) else (x, maxiter)
  | Nat.succ n, x => if res x ≤ tol then (x, 0) else
      gmresGo step res tol maxiter n (step x)

/-- Modelled from the spec: the solver entry point, running the loop with the
full iteration budget from the start vector and returning the final iterate
paired with the convergence status flag. -/
def gmres (step : List ℚ → List ℚ) (res : List ℚ → ℚ) (tol : ℚ)
    (maxiter : Nat) (x0 : List ℚ) : List ℚ × Nat :=
  gmresGo step res tol maxiter maxiter x0

/-- If no iterate within the fuel budget meets the tolerance, the loop runs
its budget down and reports the maximum iteration count as status. -/
lemma gmresGo_stuck (step : List ℚ → List ℚ) (res : List ℚ → ℚ) (tol : ℚ)
    (maxiter : Nat) :
    ∀ (fuel : Nat) (x : List ℚ),
      (∀ k, k ≤ fuel → tol < res (iterateStep step k x)) →
        gmresGo step res tol maxiter fuel x = (iterateStep step fuel x, maxiter) := by
  intro fuel
  induction fuel with
  | zero =>
    intro x h
    have h0 : tol < res x := by simpa [iterateStep] using h 0 (Nat.le_refl 0)
    rw [gmresGo, if_neg (not_le.mpr h0)]
    rfl
  | succ n ih =>
    intro x h
    have h0 : tol < res x := by simpa [iterateStep] using h 0 (Nat.zero_le _)
    rw [gmresGo, if_neg (not_le.mpr h0)]
    exact ih (step x) (fun k hk => h (k + 1) (Nat.succ_le_succ hk))

/-- Claim C9: when the iterative Krylov solver fails to converge within its
maximum iteration count, the solve operation raises no error: it returns the
best-available iterate together with a non-zero status flag, the only channel
through which convergence is reported. -/
theorem C9_gmres_nonconvergence (step : List ℚ → List ℚ) (res : List ℚ → ℚ)
    (tol : ℚ) (maxiter : Nat) (x0 : List ℚ) (hpos : 0 < maxiter)
    (hres : ∀ k, k ≤ maxiter → tol < res (iterateStep step k x0)) :
    gmres step res tol maxiter x0 = (iterateStep step maxiter x0, maxiter)
    ∧ (gmres step res tol maxiter x0).2 ≠ 0 := by
  have h := gmresGo_stuck step res tol maxiter maxiter x0 hres
  refine ⟨h, ?_⟩
  rw [gmres, h]
  exact Nat.pos_iff_ne_zero.mp hpos

/-- Witness for claim C9 at a stalling concrete instance: identity update,
constant residual one, tolerance zero, two iterations allowed. -/
theorem C9_gmres_nonconvergence_witness :
    (0 < 2
      ∧ gmres (fun v => v) (fun _ => (1 : ℚ)) 0 2 []
          = (iterateStep (fun v => v) 2 [], 2))
    ∧ (gmres (fun v => v) (fun _ => (1 : ℚ)) 0 2 []).2 ≠ 0 := by
  have h := C9_gmres_nonconvergence (fun v => v) (fun _ => (1 : ℚ)) 0 2 []
    (by norm_num) (fun k _ => by norm_num)
  exact ⟨⟨by norm_num, h.1⟩, h.2⟩

end MixedBEM
